import Mathlib

/-! Formal model of the DaniBot motor-control scripts.

Covered source material:
- PIDconf.py: the USB-CAN frame encoder (`build_usbcan_frame`, `can_crc`) and
  the stream deframer (`UsbCanParser.next_frame`).
- canProgram.py: the MKS command encoders (`build_frame`, `send_speed`,
  `send_enable`, `set_work_current`, `set_holding_current`,
  `read_enable_state`), the `enable_all` handshake and the main-loop START
  toggle state handling.
- configuracionMotores.py: the RS485 direct protocol (`checksum8`,
  `build_frame`, `frame_f6_speed`, `read_31_pos_counts`).
- The Link Watchdog / Motor Safety State Machine of the specification
  (sections 4.6 and 4.7), which has no implementation in the scripts and is
  modelled from the spec where indicated.

Python bitwise operations on nonnegative integers are rendered
arithmetically: `x & 0xFF` is `x % 256`, `x >> 8` is `x / 256`,
`x & 0x0FFF` is `x % 4096`, `x & 0xF0 == 0xC0` is `x / 16 % 16 = 12`, and
`a | (b << 8)` for values occupying disjoint bit ranges is `a + b * 256`.
Buffers and frames are `List Nat` whose elements are byte values. -/

namespace DaniBot

/-! ### PIDconf.py: USB-CAN encoder -/

/-- `can_crc` from PIDconf.py:
`(int(can_id) + sum(int(b) & 0xFF for b in data)) & 0xFF`. -/
def can_crc (can_id : Nat) (data : List Nat) : Nat :=
  (can_id + (data.map (fun b => b % 256)).sum) % 256

/-- The byte list produced by `build_usbcan_frame` (PIDconf.py) once the
range checks pass: header `0xAA`, ctrl `0xC0 | (dlc & 0x0F)` with
`dlc = len(data) + 1`, little-endian identifier, data, CRC, tail `0x55`. -/
def usbcan_frame_bytes (can_id : Nat) (data : List Nat) : List Nat :=
  0xAA :: (0xC0 + (data.length + 1) % 16) :: can_id % 256 :: can_id / 256 % 256 ::
    (data ++ [can_crc can_id data, 0x55])

/-- `build_usbcan_frame` from PIDconf.py; `ValueError` is modelled as
`Except.error`.  The source checks `0 <= can_id <= 0x7FF` and
`0 <= dlc <= 8` with `dlc = len(data) + 1`; the lower bounds are trivially
true for natural numbers. -/
def build_usbcan_frame (can_id : Nat) (data : List Nat) : Except String (List Nat) :=
  if 0x7FF < can_id then .error "CAN_ID fuera de 11 bits (0..0x7FF)"
  else if 8 < data.length + 1 then .error "DLC CAN invalido (0..8)"
  else .ok (usbcan_frame_bytes can_id data)

/-! ### PIDconf.py: UsbCanParser deframer

`UsbCanParser.next_frame` is one `while True` loop over a byte buffer.  Each
iteration either returns or strictly shortens the buffer, so the loop is
modelled with a fuel parameter bounded by the buffer length.  `nf_core` is
the loop body after the leading garbage before the first `0xAA` has been
discarded (`self.buf.index(0xAA)` / `del self.buf[:i]`, which also covers
the `clear()` on `ValueError` since a buffer without `0xAA` strips to `[]`
and then fails the minimum-length check).  The function returns the parsed
frame (if any) together with the buffer contents left for the next call. -/

def nf_core (recur : List Nat → Option (Nat × List Nat) × List Nat)
    (b : List Nat) : Option (Nat × List Nat) × List Nat :=
  if b.length < 6 then (none, b)
  else if b.getD 1 0 / 16 % 16 ≠ 12 then recur (b.drop 1)
  else if b.length < 5 + b.getD 1 0 % 16 then (none, b)
  else if b.getD (4 + b.getD 1 0 % 16) 0 ≠ 0x55 then recur (b.drop 1)
  else if b.getD 1 0 % 16 < 1 then recur (b.drop (5 + b.getD 1 0 % 16))
  else if ((b.drop 4).take (b.getD 1 0 % 16)).getLast?.getD 0 ≠
      can_crc (b.getD 2 0 + b.getD 3 0 * 256) ((b.drop 4).take (b.getD 1 0 % 16)).dropLast
    then recur (b.drop (5 + b.getD 1 0 % 16))
  else (some (b.getD 2 0 + b.getD 3 0 * 256, ((b.drop 4).take (b.getD 1 0 % 16)).dropLast),
        b.drop (5 + b.getD 1 0 % 16))

def nf_step (recur : List Nat → Option (Nat × List Nat) × List Nat)
    (buf : List Nat) : Option (Nat × List Nat) × List Nat :=
  nf_core recur (buf.dropWhile (fun x => x != 0xAA))

def next_frame_fuel : Nat → List Nat → Option (Nat × List Nat) × List Nat
  | 0, buf => (none, buf)
  | fuel + 1, buf => nf_step (next_frame_fuel fuel) buf

/-- `UsbCanParser.next_frame`: one call on the given buffer contents. -/
def next_frame (buf : List Nat) : Option (Nat × List Nat) × List Nat :=
  next_frame_fuel (buf.length + 1) buf

def drain_fuel : Nat → List Nat → List (Nat × List Nat)
  | 0, _ => []
  | fuel + 1, buf =>
    match next_frame buf with
    | (some fr, rest) => fr :: drain_fuel fuel rest
    | (none, _) => []

/-- Repeatedly calling `next_frame` until it returns `None`, collecting all
frames produced, as `read_one_reply` does. -/
def drain (buf : List Nat) : List (Nat × List Nat) :=
  drain_fuel (buf.length + 1) buf

/-- A byte string that is one complete, structurally valid encapsulated
frame: start marker, ctrl of the `0xC0 | dlc` shape with `1 ≤ dlc`, exact
length, end marker and matching CRC.  Used to state the deframer claims'
side condition that noise contains no complete valid frame. -/
def is_valid_frame (l : List Nat) : Bool :=
  match l with
  | 0xAA :: ctrl :: idlo :: idhi :: rest =>
      decide (ctrl / 16 % 16 = 12) && decide (1 ≤ ctrl % 16) &&
      decide (rest.length = ctrl % 16 + 1) &&
      decide (rest.getD (ctrl % 16) 0 = 0x55) &&
      decide ((rest.take (ctrl % 16)).getLast?.getD 0 =
        can_crc (idlo + idhi * 256) (rest.take (ctrl % 16)).dropLast)
  | _ => false

/-- Whether some contiguous byte substring of `l` is a complete valid frame. -/
def contains_valid_frame (l : List Nat) : Bool :=
  (List.range (l.length + 1)).any fun i =>
    (List.range (l.length + 1)).any fun j => is_valid_frame ((l.drop i).take j)

/-! ### canProgram.py: frame builder, commands, enable sequence -/

/-- `ACC` from canProgram.py. -/
def ACC : Nat := 240

/-- `build_frame(dlc, can_id, data)` from canProgram.py (also daniBot.py):
the ctrl byte is passed in by the caller, the CRC is
`(can_id + sum(data)) & 0xFF`. -/
def cp_build_frame (dlc can_id : Nat) (data : List Nat) : List Nat :=
  [0xAA, dlc % 256, can_id % 256, can_id / 256 % 256] ++ data ++
    [(can_id + data.sum) % 256, 0x55]

/-- The payload assembled by `send_speed` (canProgram.py): direction bit
from the sign, magnitude clamped to `[0, 3000]`, masked to 12 bits, split
into a high nibble (with the direction in bit 7) and a low byte. -/
def send_speed_data (rpm : Int) : List Nat :=
  let direction : Nat := if rpm < 0 then 1 else 0
  let r : Int := if rpm < 0 then -rpm else rpm
  let rpmC : Int := max 0 (min 3000 r)
  let speed : Nat := rpmC.toNat % 4096
  [0xF6, direction * 128 + speed / 256 % 16, speed % 256, ACC]

/-- The frame written by `send_speed` (canProgram.py). -/
def send_speed_frame (can_id : Nat) (rpm : Int) : List Nat :=
  cp_build_frame 0xC5 can_id (send_speed_data rpm)

/-- The frame written by `send_enable` (canProgram.py). -/
def send_enable_frame (can_id : Nat) (enable : Bool) : List Nat :=
  cp_build_frame 0xC2 can_id [0xF3, if enable then 1 else 0]

def WORK_CURRENT_MA : Nat := 1600

def HOLDING_PERCENT : Nat := 50

/-- The frame written by `set_work_current` (canProgram.py):
`ma` is clamped to `[0, 3000]` and split little-endian. -/
def set_work_current_frame (can_id ma : Nat) : List Nat :=
  cp_build_frame 0xC3 can_id [0x83, min 3000 ma % 256, min 3000 ma / 256 % 256]

/-- The frame written by `set_holding_current` (canProgram.py) on the valid
path; `enable_all` only calls it with `HOLDING_PERCENT = 50`, which passes
the membership check, giving code `(percent // 10) - 1`. -/
def set_holding_current_frame (can_id percent : Nat) : List Nat :=
  cp_build_frame 0xC2 can_id [0x9B, percent / 10 - 1]

/-- The query frame written by `read_enable_state` (canProgram.py). -/
def read_enable_query_frame (can_id : Nat) : List Nat :=
  cp_build_frame 0xC1 can_id [0x3A]

/-- The receive-side scan of `read_enable_state` (canProgram.py, also
daniBot.py): walk the raw bytes looking for `0x3A` immediately followed by
`0` or `1`; on the first such pair return whether the byte is `1`. -/
def parse_enable_state : List Nat → Option Bool
  | a :: b :: rest =>
    if a = 0x3A ∧ (b = 0 ∨ b = 1) then some (b == 1)
    else parse_enable_state (b :: rest)
  | _ => none

/-- One bounded retry loop of `enable_all` / `disable_all` (canProgram.py):
`for _ in range(attempts): send_enable(...); st = read_enable_state(...);
if st is want: break`.  `o` is the oracle of successive
`read_enable_state` results and `k` the index of the next query; the
result is the frames written, the next oracle index, and whether the
verification succeeded. -/
def retry_enable (can_id : Nat) (want : Bool) :
    Nat → (Nat → Option Bool) → Nat → List (List Nat) × Nat × Bool
  | 0, _, k => ([], k, false)
  | n + 1, o, k =>
    if o k = some want then ([send_enable_frame can_id want], k + 1, true)
    else
      let r := retry_enable can_id want n o (k + 1)
      (send_enable_frame can_id want :: r.1, r.2.1, r.2.2)

/-- The per-motor body of `enable_all` (canProgram.py): up to 2 verified
disable attempts, work-current and holding-current configuration, then up
to 4 verified `Enable(true)` attempts.  Returns the frames written and the
next oracle index. -/
def enable_motor_tx (m : Nat) (o : Nat → Option Bool) (k : Nat) :
    List (List Nat) × Nat :=
  let d := retry_enable m false 2 o k
  let e := retry_enable m true 4 o d.2.1
  (d.1 ++ [set_work_current_frame m WORK_CURRENT_MA,
           set_holding_current_frame m HOLDING_PERCENT] ++ e.1, e.2.1)

/-- `ALL_MOTORS = MOTOR_LEFT + MOTOR_RIGHT = [0x03, 0x04] + [0x01, 0x02]`
(canProgram.py). -/
def ALL_MOTORS : List Nat := [3, 4, 1, 2]

/-- All frames written by `enable_all` (canProgram.py) over `ALL_MOTORS`. -/
def enable_all_tx (o : Nat → Option Bool) : List (List Nat) :=
  (ALL_MOTORS.foldl (fun acc m =>
      let r := enable_motor_tx m o acc.2
      (acc.1 ++ r.1, r.2)) ([], 0)).1

def STATE_DISABLED : Nat := 0

def STATE_ENABLING : Nat := 1

def STATE_ENABLED : Nat := 2

def STATE_DISABLING : Nat := 3

/-- Net effect on `system_state` of one START press in the main loop of
canProgram.py (lines 204-221): from ENABLED it runs `disable_all` and ends
DISABLED; from DISABLED it runs `enable_all` and unconditionally ends
ENABLED, regardless of whether any enable verification succeeded. -/
def start_toggle (s : Nat) : Nat :=
  if s = STATE_ENABLED then STATE_DISABLED
  else if s = STATE_DISABLED then STATE_ENABLED
  else s

/-- The differential mixer of the canProgram.py main loop (lines 236-237,
identically in daniBot.py), before scaling by `MAX_RPM * factor`:
`left = -clamp(v + w, -1, 1)`, `right = clamp(v - w, -1, 1)`. -/
def clampQ (x lo hi : ℚ) : ℚ := max lo (min hi x)

def mix (v w : ℚ) : ℚ × ℚ :=
  (-(clampQ (v + w) (-1) 1), clampQ (v - w) (-1) 1)

/-! ### configuracionMotores.py: RS485 direct protocol -/

/-- `ADDR = 0x01` (configuracionMotores.py). -/
def ADDR : Nat := 1

/-- `SPD_ACC = 2` (configuracionMotores.py). -/
def SPD_ACC : Nat := 2

/-- `checksum8(data) = sum(data) & 0xFF` (configuracionMotores.py). -/
def checksum8 (data : List Nat) : Nat := data.sum % 256

/-- `build_frame(cmd, data)` from configuracionMotores.py:
`FA ADDR CMD data... CHK` with `CHK = checksum8` of all preceding bytes.
Named `rs485_build_frame` here to distinguish it from canProgram.py's
`build_frame`. -/
def rs485_build_frame (cmd : Nat) (data : List Nat) : List Nat :=
  let wo := [0xFA, ADDR % 256, cmd % 256] ++ data.map (fun x => x % 256)
  wo ++ [checksum8 wo]

/-- `int48_be_signed` (configuracionMotores.py): big-endian bytes to a
48-bit two's-complement value; `u & (1 << 47)` is nonzero for a 48-bit
value exactly when `2^47 ≤ u`. -/
def int48_be_signed (b6 : List Nat) : Int :=
  let u : Nat := b6.foldl (fun a b => a * 256 + b) 0
  if 2 ^ 47 ≤ u then (u : Int) - 2 ^ 48 else (u : Int)

/-- `frame_f6_speed` (configuracionMotores.py): direction from the sign,
magnitude `abs(rpm)` capped at `ABS_MAX_RPM = 3000`,
`byte4 = ((direction & 1) << 7) | ((speed >> 8) & 0x0F)`,
`byte5 = speed & 0xFF`, `acc = SPD_ACC & 0xFF`. -/
def frame_f6_speed (rpm : Int) : List Nat :=
  let direction : Nat := if rpm < 0 then 1 else 0
  let speed0 : Nat := rpm.natAbs
  let speed : Nat := if 3000 < speed0 then 3000 else speed0
  rs485_build_frame 0xF6 [direction % 2 * 128 + speed / 256 % 16, speed % 256, SPD_ACC % 256]

/-- The validation of `read_31_pos_counts` (configuracionMotores.py) on the
received bytes: exactly 10 bytes, `FB ADDR 31` header, checksum over the
first nine bytes equal to the last byte, then the signed 48-bit payload. -/
def read_31_parse (rx : List Nat) : Option Int :=
  match rx with
  | [b0, b1, b2, b3, b4, b5, b6, b7, b8, b9] =>
    if b0 ≠ 0xFB ∨ b1 ≠ ADDR % 256 ∨ b2 ≠ 0x31 then none
    else if checksum8 [b0, b1, b2, b3, b4, b5, b6, b7, b8] ≠ b9 then none
    else some (int48_be_signed [b3, b4, b5, b6, b7, b8])
  | _ => none

/-! ### Motor safety state machine and link watchdog -/

/-- Modelled from the spec: the Motor State of section 3 / 4.6.  No script
in the repository implements the watchdog or the EmergencyStop path; the
state machine below follows the specification's words. -/
inductive MotorState
  | Disabled
  | Enabling
  | Enabled
  | Disabling
  | EmergencyStop
deriving DecidableEq, Repr

/-- Modelled from the spec: one control tick's input, as observed by the
Link Watchdog (section 4.7): whether `now - last_input_time > timeout`
(no external input sample accepted within the timeout) and whether a fresh
explicit enable request was made this tick. -/
structure TickInput where
  stale : Bool
  enableReq : Bool
deriving DecidableEq, Repr

/-- Modelled from the spec: one control tick of the Motor Safety State
Machine combined with the Link Watchdog (sections 4.6, 4.7, absent from
the repository's scripts).  If the input is stale and the machine is not
already Disabled or EmergencyStop, the watchdog requests EmergencyStop,
taking priority over any pending user transition.  EmergencyStop completes
its stop sequence and exits to Disabled; Disabled only leaves on an
explicit enable request; Enabled leaves on a toggle; Disabling and
Enabling complete. -/
def watchdog_tick (s : MotorState) (inp : TickInput) : MotorState :=
  if inp.stale = true ∧ s ≠ .Disabled ∧ s ≠ .EmergencyStop then .EmergencyStop
  else
    match s with
    | .EmergencyStop => .Disabled
    | .Disabled => if inp.enableReq then .Enabling else .Disabled
    | .Enabling => .Enabled
    | .Enabled => if inp.enableReq then .Disabling else .Enabled
    | .Disabling => .Disabled

/-- Spec-side magnitude of a velocity command: `|rpm|` clamped to 3000. -/
def mag (rpm : Int) : Nat := min 3000 rpm.natAbs

/-! ### Helper lemmas -/

lemma map_mod_eq_self {data : List Nat} (h : ∀ b ∈ data, b < 256) :
    data.map (fun b => b % 256) = data := by
  have : data.map (fun b => b % 256) = data.map id := by
    refine List.map_congr_left ?_
    intro a ha
    exact Nat.mod_eq_of_lt (h a ha)
  simpa using this

lemma can_crc_of_bytes {can_id : Nat} {data : List Nat} (h : ∀ b ∈ data, b < 256) :
    can_crc can_id data = (can_id + data.sum) % 256 := by
  unfold can_crc
  rw [map_mod_eq_self h]

/-! ### Claims about the encoders -/

/-- C1: for every in-range CAN identifier and every encodable byte payload,
the encoded CAN-over-serial frame is exactly
`0xAA, CTRL, ID_LO, ID_HI, payload, CRC, 0x55` with the little-endian
identifier and `CRC = (identifier + sum payload) mod 256`; in particular
the Velocity(rpm=100, accel=2) payload `F6 00 64 02` for CAN address 1
encodes with checksum `0x5D`. -/
theorem c1_usbcan_frame_layout :
    (∀ (can_id : Nat) (data : List Nat),
        can_id ≤ 0x7FF → data.length ≤ 7 → (∀ b ∈ data, b < 256) →
        build_usbcan_frame can_id data =
          .ok ([0xAA, 0xC0 + (data.length + 1)] ++ [can_id % 256, can_id / 256] ++
            data ++ [(can_id + data.sum) % 256, 0x55])) ∧
    build_usbcan_frame 1 [0xF6, 0x00, 0x64, 0x02] =
      .ok [0xAA, 0xC5, 0x01, 0x00, 0xF6, 0x00, 0x64, 0x02, 0x5D, 0x55] := by
  constructor
  · intro can_id data hid hlen hbytes
    have h1 : ¬ 0x7FF < can_id := by omega
    have h2 : ¬ 8 < data.length + 1 := by omega
    rw [build_usbcan_frame, if_neg h1, if_neg h2]
    unfold usbcan_frame_bytes
    rw [can_crc_of_bytes hbytes]
    have h3 : (data.length + 1) % 16 = data.length + 1 := by omega
    have h4 : can_id / 256 % 256 = can_id / 256 := by omega
    rw [h3, h4]
    simp
  · rfl

/-- Witness for C1 at identifier 1 and the scenario-A velocity payload. -/
theorem c1_usbcan_frame_layout_witness :
    build_usbcan_frame 1 [0xF6, 0x00, 0x64, 0x02] =
      .ok ([0xAA, 0xC0 + ([0xF6, 0x00, 0x64, 0x02].length + 1)] ++ [1 % 256, 1 / 256] ++
        [0xF6, 0x00, 0x64, 0x02] ++ [(1 + [0xF6, 0x00, 0x64, 0x02].sum) % 256, 0x55]) :=
  c1_usbcan_frame_layout.1 1 [0xF6, 0x00, 0x64, 0x02] (by decide) (by decide) (by decide)

/-- C2: the velocity command's direction bit is 1 exactly when `rpm` is
negative, the magnitude is `|rpm|` clamped to `[0, 3000]`, and the payload
layout is `[0xF6, dir*128 + mag/256 % 16, mag % 256, accel]`; in
particular Velocity(rpm=-50) gives direction byte `0x80` and magnitude
bytes `0x00 0x32`, and over-range magnitudes are clamped, never
rejected. -/
theorem c2_velocity_encoding :
    (∀ rpm : Int,
        send_speed_data rpm =
          [0xF6, (if rpm < 0 then 1 else 0) * 128 + mag rpm / 256 % 16,
            mag rpm % 256, ACC] ∧ mag rpm ≤ 3000) ∧
    (∀ rpm : Int,
        frame_f6_speed rpm =
          rs485_build_frame 0xF6
            [(if rpm < 0 then 1 else 0) * 128 + mag rpm / 256 % 16,
              mag rpm % 256, SPD_ACC]) ∧
    send_speed_data (-50) = [0xF6, 0x80, 0x32, ACC] ∧
    send_speed_data 999999 = [0xF6, 0x0B, 0xB8, ACC] := by
  refine ⟨?_, ?_, by decide, by decide⟩
  · intro rpm
    have hs : (max 0 (min 3000 (if rpm < 0 then -rpm else rpm))).toNat % 4096 =
        min 3000 rpm.natAbs := by
      split_ifs <;> omega
    simp only [send_speed_data, mag, hs]
    exact ⟨by trivial, by omega⟩
  · intro rpm
    have hs : (if 3000 < rpm.natAbs then 3000 else rpm.natAbs) = min 3000 rpm.natAbs := by
      split_ifs <;> omega
    simp only [frame_f6_speed, mag, hs]
    split_ifs <;> rfl

/-- C9 counterexample: the encoder accepts CAN identifier 0, which lies
outside the claimed addressable range `[1, 0x7FF]`, so encoding does not
fail exactly on that range. -/
theorem c9_counterexample :
    build_usbcan_frame 0 [0xF6] = .ok [0xAA, 0xC2, 0x00, 0x00, 0xF6, 0xF6, 0x55] := by
  rfl

/-- C9 (amended): encoding never fails for in-range inputs and fails
exactly when the identifier exceeds `0x7FF` (the accepted range is
`[0, 0x7FF]`, not `[1, 0x7FF]`) or the CAN payload including its CRC byte
is longer than 8. -/
theorem c9_amended :
    ∀ (can_id : Nat) (data : List Nat),
      (build_usbcan_frame can_id data).isOk = true ↔
        can_id ≤ 0x7FF ∧ data.length + 1 ≤ 8 := by
  intro can_id data
  unfold build_usbcan_frame
  split_ifs <;> simp [Except.isOk, Except.toBool] <;> omega

/-- C7: the RS485 direct-protocol encoder produces exactly
`0xFA, ADDR, CMD, payload, CHK` with `CHK` the sum of all preceding bytes
mod 256, and a received `0x31` response frame is accepted only if it
starts with `0xFB`, carries the expected address and command byte, and its
final byte equals the sum of all preceding bytes mod 256. -/
theorem c7_rs485_protocol :
    (∀ (cmd : Nat) (data : List Nat), cmd < 256 → (∀ b ∈ data, b < 256) →
        rs485_build_frame cmd data =
          [0xFA, ADDR, cmd] ++ data ++ [(0xFA + ADDR + cmd + data.sum) % 256]) ∧
    (∀ (rx : List Nat) (v : Int), read_31_parse rx = some v →
        rx.length = 10 ∧ rx.getD 0 0 = 0xFB ∧ rx.getD 1 0 = ADDR ∧
        rx.getD 2 0 = 0x31 ∧ rx.getD 9 0 = (rx.take 9).sum % 256) := by
  constructor
  · intro cmd data hcmd hbytes
    have h1 : cmd % 256 = cmd := Nat.mod_eq_of_lt hcmd
    simp only [rs485_build_frame, checksum8, map_mod_eq_self hbytes, ADDR, h1,
      List.cons_append, List.nil_append, List.sum_cons]
    have h2 : (0xFA + (1 % 256 + (cmd + data.sum))) % 256 =
        (0xFA + ADDR + cmd + data.sum) % 256 := by
      unfold ADDR; omega
    rw [h2]
    simp [ADDR]
  · intro rx v h
    unfold read_31_parse at h
    split at h
    · next b0 b1 b2 b3 b4 b5 b6 b7 b8 b9 =>
      split_ifs at h with h1 h2
      push_neg at h1
      obtain ⟨e0, e1, e2⟩ := h1
      rw [not_ne_iff] at h2
      simp only [checksum8, List.sum_cons, List.sum_nil] at h2
      refine ⟨rfl, by simpa using e0, by simpa [ADDR] using e1, by simpa using e2, ?_⟩
      simp only [List.getD_cons_succ, List.getD_cons_zero, List.take_succ_cons,
        List.take_zero, List.sum_cons, List.sum_nil]
      omega
    · exact absurd h (by simp)

/-- Witness for C7: the `0x31` position query frame and an accepted
response frame for address 1. -/
theorem c7_rs485_protocol_witness :
    rs485_build_frame 0x31 [] =
      [0xFA, ADDR, 0x31] ++ [] ++ [(0xFA + ADDR + 0x31 + List.sum []) % 256] ∧
    ([0xFB, 1, 0x31, 0, 0, 0, 0, 0, 0, 0x2D].length = 10 ∧
      [0xFB, 1, 0x31, 0, 0, 0, 0, 0, 0, 0x2D].getD 0 0 = 0xFB ∧
      [0xFB, 1, 0x31, 0, 0, 0, 0, 0, 0, 0x2D].getD 1 0 = ADDR ∧
      [0xFB, 1, 0x31, 0, 0, 0, 0, 0, 0, 0x2D].getD 2 0 = 0x31 ∧
      [0xFB, 1, 0x31, 0, 0, 0, 0, 0, 0, 0x2D].getD 9 0 =
        ([0xFB, 1, 0x31, 0, 0, 0, 0, 0, 0, 0x2D].take 9).sum % 256) :=
  ⟨c7_rs485_protocol.1 0x31 [] (by decide) (by simp),
   c7_rs485_protocol.2 [0xFB, 1, 0x31, 0, 0, 0, 0, 0, 0, 0x2D] 0 (by decide)⟩

/-- C8: the differential mixer computes
`left = clamp(-(forward+turn), -1, 1)` and
`right = clamp(forward-turn, -1, 1)` (the code's `-clamp(v+w, -1, 1)` is
the same function); `mix(0,0) = (0,0)`; and both outputs lie within
`[-1, 1]` before scaling by the maximum speed and speed multiplier. -/
theorem c8_differential_mixer :
    (∀ v w : ℚ, mix v w = (clampQ (-(v + w)) (-1) 1, clampQ (v - w) (-1) 1)) ∧
    mix 0 0 = (0, 0) ∧
    (∀ v w : ℚ, -1 ≤ (mix v w).1 ∧ (mix v w).1 ≤ 1 ∧
      -1 ≤ (mix v w).2 ∧ (mix v w).2 ≤ 1) := by
  have key : ∀ x : ℚ, -(clampQ x (-1) 1) = clampQ (-x) (-1) 1 := by
    intro x
    simp only [clampQ, max_def, min_def]
    split_ifs <;> linarith
  have bounds : ∀ x : ℚ, -1 ≤ clampQ x (-1) 1 ∧ clampQ x (-1) 1 ≤ 1 := by
    intro x
    exact ⟨le_max_left _ _, max_le (by norm_num) (min_le_left _ _)⟩
  refine ⟨?_, ?_, ?_⟩
  · intro v w
    unfold mix
    rw [key]
  · simp [mix, clampQ]
  · intro v w
    obtain ⟨hl1, hl2⟩ := bounds (v + w)
    obtain ⟨hr1, hr2⟩ := bounds (v - w)
    unfold mix
    refine ⟨by simp only []; linarith, by simp only []; linarith, hr1, hr2⟩

/-- C3 (the watchdog and state machine are modelled from the spec, no
script implements them): from Enabled, a stale-input tick always forces
EmergencyStop and the next tick completes the stop into Disabled — a
bounded number of ticks — and afterwards, without a fresh explicit enable
request, the machine never re-enters Enabled. -/
theorem c3_watchdog_safety :
    ∀ (i1 i2 : TickInput) (rest : List TickInput),
      i1.stale = true → i2.stale = true →
      (∀ i ∈ rest, i.enableReq = false) →
      watchdog_tick .Enabled i1 = .EmergencyStop ∧
      watchdog_tick (watchdog_tick .Enabled i1) i2 = .Disabled ∧
      ∀ s ∈ List.scanl watchdog_tick
          (watchdog_tick (watchdog_tick .Enabled i1) i2) rest, s ≠ .Enabled := by
  intro i1 i2 rest h1 h2 hrest
  have e1 : watchdog_tick .Enabled i1 = .EmergencyStop := by
    simp [watchdog_tick, h1]
  have e2 : watchdog_tick .EmergencyStop i2 = .Disabled := by
    simp [watchdog_tick]
  have key : ∀ (l : List TickInput), (∀ i ∈ l, i.enableReq = false) →
      ∀ s ∈ List.scanl watchdog_tick .Disabled l, s = .Disabled := by
    intro l
    induction l with
    | nil =>
      intro _ s hs
      simpa [List.scanl_nil] using hs
    | cons a t iht =>
      intro hl s hs
      have ha : a.enableReq = false := hl a (by simp)
      have hd : watchdog_tick .Disabled a = .Disabled := by
        simp [watchdog_tick, ha]
      rw [List.scanl_cons, hd] at hs
      rcases List.mem_append.mp hs with hs | hs
      · simpa using hs
      · exact iht (fun i hi => hl i (by simp [hi])) s hs
  refine ⟨e1, by rw [e1]; exact e2, ?_⟩
  rw [e1, e2]
  intro s hs
  rw [key rest hrest s hs]
  simp

/-- Witness for C3: two stale ticks from Enabled, then one quiet tick. -/
theorem c3_watchdog_safety_witness :
    watchdog_tick .Enabled ⟨true, false⟩ = .EmergencyStop ∧
    watchdog_tick (watchdog_tick .Enabled ⟨true, false⟩) ⟨true, false⟩ = .Disabled ∧
    ∀ s ∈ List.scanl watchdog_tick
        (watchdog_tick (watchdog_tick .Enabled ⟨true, false⟩) ⟨true, false⟩)
        [⟨false, false⟩], s ≠ .Enabled :=
  c3_watchdog_safety ⟨true, false⟩ ⟨true, false⟩ [⟨false, false⟩] rfl rfl
    (by intro i hi; simp at hi; rw [hi])

/-! ### C4: the enable handshake with exhausted retries -/

lemma retry_enable_fail {o : Nat → Option Bool} (ho : ∀ j, o j ≠ some true)
    (m : Nat) : ∀ (n k : Nat),
    retry_enable m true n o k =
      (List.replicate n (send_enable_frame m true), k + n, false) := by
  intro n
  induction n with
  | zero =>
    intro k
    simp [retry_enable]
  | succ n ihn =>
    intro k
    simp only [retry_enable, if_neg (ho k), ihn (k + 1), List.replicate_succ,
      Prod.mk.injEq]
    exact ⟨by trivial, by omega, by trivial⟩

lemma retry_disable_cases (m : Nat) (o : Nat → Option Bool) (k : Nat) :
    (retry_enable m false 2 o k).1 = [send_enable_frame m false] ∨
    (retry_enable m false 2 o k).1 =
      [send_enable_frame m false, send_enable_frame m false] := by
  by_cases h1 : o k = some false
  · left
    simp [retry_enable, h1]
  · by_cases h2 : o (k + 1) = some false
    · right
      simp [retry_enable, h1, h2]
    · right
      simp [retry_enable, h1, h2]

lemma disable_beq_enable (m : Nat) :
    (send_enable_frame m false == send_enable_frame m true) = false := by
  simp [send_enable_frame, cp_build_frame]

lemma work_current_beq_enable (m : Nat) :
    (set_work_current_frame m WORK_CURRENT_MA == send_enable_frame m true) = false := by
  simp [set_work_current_frame, send_enable_frame, cp_build_frame, WORK_CURRENT_MA]

lemma holding_beq_enable (m : Nat) :
    (set_holding_current_frame m HOLDING_PERCENT == send_enable_frame m true) = false := by
  simp [set_holding_current_frame, send_enable_frame, cp_build_frame, HOLDING_PERCENT]

/-- C4 counterexample: when every `read_enable_state` verification fails
(oracle always `None`), the enable sequence for motor 3 does send exactly
4 `Enable(true)` frames, but the main loop's START handler then leaves the
system in `STATE_ENABLED`, not `STATE_DISABLED`, and no error is
reported — contradicting the claim that the machine ends Disabled with
`VerificationFailed`. -/
theorem c4_counterexample :
    ((enable_motor_tx 3 (fun _ => none) 0).1).count (send_enable_frame 3 true) = 4 ∧
    start_toggle STATE_DISABLED = STATE_ENABLED ∧
    STATE_ENABLED ≠ STATE_DISABLED := by
  decide

/-- C4 (amended): an Enabling sequence whose `StatusQuery` verification
never succeeds sends exactly 4 `Enable(true)` frames per motor (the
bounded retry cap), after which the main loop unconditionally marks the
system Enabled; no `VerificationFailed` error exists in the code and the
machine does not fall back to Disabled. -/
theorem c4_amended :
    ∀ (m : Nat) (o : Nat → Option Bool) (k : Nat),
      (∀ j, o j ≠ some true) →
      ((enable_motor_tx m o k).1).count (send_enable_frame m true) = 4 ∧
      start_toggle STATE_DISABLED = STATE_ENABLED := by
  intro m o k ho
  refine ⟨?_, rfl⟩
  simp only [enable_motor_tx, retry_enable_fail ho m 4, List.count_append]
  have hrep : (List.replicate 4 (send_enable_frame m true)).count
      (send_enable_frame m true) = 4 := by
    simp [List.count_replicate]
  have hmid : List.count (send_enable_frame m true)
      [set_work_current_frame m WORK_CURRENT_MA,
        set_holding_current_frame m HOLDING_PERCENT] = 0 := by
    simp [List.count_cons, work_current_beq_enable, holding_beq_enable]
  rcases retry_disable_cases m o k with hd | hd <;>
    rw [hd] <;>
    simp [List.count_cons, disable_beq_enable, hrep, hmid, List.count_replicate]

/-- Witness for C4's amended theorem at motor 3 with an all-`None` oracle. -/
theorem c4_amended_witness :
    ((enable_motor_tx 3 (fun _ => none) 0).1).count (send_enable_frame 3 true) = 4 ∧
    start_toggle STATE_DISABLED = STATE_ENABLED :=
  c4_amended 3 (fun _ => none) 0 (by intro j; simp)

/-! ### C10: the enable-state scan -/

/-- C10: the enable-state query parse returns `some b` exactly when the
raw byte window contains `0x3A` immediately followed by a byte in `{0,1}`,
taking the first such pair with `b` true iff that byte is `1`; it performs
no frame-boundary, checksum or address validation, so any matching pair
inside unrelated bytes is reported as the motor's enable state. -/
theorem c10_enable_state_parse :
    ∀ raw : List Nat,
      ((parse_enable_state raw).isSome = true ↔
        ∃ i, i + 1 < raw.length ∧ raw.getD i 0 = 0x3A ∧
          (raw.getD (i + 1) 0 = 0 ∨ raw.getD (i + 1) 0 = 1)) ∧
      (∀ b, parse_enable_state raw = some b →
        ∃ i, i + 1 < raw.length ∧ raw.getD i 0 = 0x3A ∧
          (raw.getD (i + 1) 0 = 0 ∨ raw.getD (i + 1) 0 = 1) ∧
          (∀ j, j < i → ¬(raw.getD j 0 = 0x3A ∧
            (raw.getD (j + 1) 0 = 0 ∨ raw.getD (j + 1) 0 = 1))) ∧
          (b = true ↔ raw.getD (i + 1) 0 = 1)) := by
  intro raw
  induction raw with
  | nil =>
    constructor
    · simp [parse_enable_state]
    · intro b h
      simp [parse_enable_state] at h
  | cons a tail ih =>
    cases tail with
    | nil =>
      constructor
      · simp [parse_enable_state]
      · intro b h
        simp [parse_enable_state] at h
    | cons c rest =>
      by_cases hc : a = 0x3A ∧ (c = 0 ∨ c = 1)
      · constructor
        · simp only [parse_enable_state, if_pos hc]
          constructor
          · intro _
            exact ⟨0, by simp, by simp [hc.1], by simpa using hc.2⟩
          · intro _
            simp
        · intro b h
          simp only [parse_enable_state, if_pos hc, Option.some.injEq] at h
          refine ⟨0, by simp, by simp [hc.1], by simpa using hc.2, ?_, ?_⟩
          · intro j hj
            omega
          · rw [← h]
            simp
      · have hstep : parse_enable_state (a :: c :: rest) = parse_enable_state (c :: rest) := by
          simp only [parse_enable_state, if_neg hc]
        obtain ⟨ih1, ih2⟩ := ih
        constructor
        · rw [hstep, ih1]
          constructor
          · rintro ⟨i, hi1, hi2, hi3⟩
            refine ⟨i + 1, ?_, ?_, ?_⟩
            · simp only [List.length_cons] at hi1 ⊢
              omega
            · simpa using hi2
            · simpa using hi3
          · rintro ⟨i, hi1, hi2, hi3⟩
            cases i with
            | zero =>
              exact absurd ⟨by simpa using hi2, by simpa using hi3⟩ hc
            | succ i =>
              refine ⟨i, ?_, ?_, ?_⟩
              · simp only [List.length_cons] at hi1 ⊢
                omega
              · simpa using hi2
              · simpa using hi3
        · intro b h
          rw [hstep] at h
          obtain ⟨i, hi1, hi2, hi3, hi4, hi5⟩ := ih2 b h
          refine ⟨i + 1, ?_, by simpa using hi2, by simpa using hi3, ?_, by simpa using hi5⟩
          · simp only [List.length_cons] at hi1 ⊢
            omega
          · intro j hj
            cases j with
            | zero =>
              intro hpair
              exact hc ⟨by simpa using hpair.1, by simpa using hpair.2⟩
            | succ j =>
              intro hpair
              exact hi4 j (by omega) ⟨by simpa using hpair.1, by simpa using hpair.2⟩

/-- Witness for C10: a `3A 01` pair buried in unrelated bytes is accepted
as "enabled". -/
theorem c10_enable_state_parse_witness :
    ∃ i, i + 1 < [0x12, 0x3A, 1].length ∧ [0x12, 0x3A, 1].getD i 0 = 0x3A ∧
      ([0x12, 0x3A, 1].getD (i + 1) 0 = 0 ∨ [0x12, 0x3A, 1].getD (i + 1) 0 = 1) ∧
      (∀ j, j < i → ¬([0x12, 0x3A, 1].getD j 0 = 0x3A ∧
        ([0x12, 0x3A, 1].getD (j + 1) 0 = 0 ∨ [0x12, 0x3A, 1].getD (j + 1) 0 = 1))) ∧
      (true = true ↔ [0x12, 0x3A, 1].getD (i + 1) 0 = 1) :=
  (c10_enable_state_parse [0x12, 0x3A, 1]).2 true (by decide)

/-! ### Deframer lemmas

The parser loop strictly shortens its buffer on every iteration, so
`next_frame_fuel` is independent of the fuel once the fuel exceeds the
buffer length; `next_frame_fix` is the resulting fixed-point equation. -/

lemma length_dropWhile_le' (p : Nat → Bool) (l : List Nat) :
    (l.dropWhile p).length ≤ l.length := by
  induction l with
  | nil => simp
  | cons a t ih =>
    rw [List.dropWhile_cons]
    split
    · simp only [List.length_cons]
      omega
    · simp

lemma nf_core_congr {r1 r2 : List Nat → Option (Nat × List Nat) × List Nat}
    (b : List Nat)
    (h : ∀ b' : List Nat, b'.length < b.length → r1 b' = r2 b') :
    nf_core r1 b = nf_core r2 b := by
  unfold nf_core
  split_ifs <;> first
    | rfl
    | (apply h; simp only [List.length_drop]; omega)

lemma nf_step_congr {r1 r2 : List Nat → Option (Nat × List Nat) × List Nat}
    (buf : List Nat)
    (h : ∀ b' : List Nat, b'.length < buf.length → r1 b' = r2 b') :
    nf_step r1 buf = nf_step r2 buf := by
  unfold nf_step
  apply nf_core_congr
  intro b' hb'
  apply h
  have := length_dropWhile_le' (fun x => x != 0xAA) buf
  omega

lemma next_frame_fuel_canon :
    ∀ (f : Nat) (buf : List Nat), buf.length < f →
      next_frame_fuel f buf = next_frame buf := by
  intro f
  induction f using Nat.strong_induction_on with
  | _ f IH =>
    intro buf hf
    cases f with
    | zero => omega
    | succ g =>
      show nf_step (next_frame_fuel g) buf = nf_step (next_frame_fuel buf.length) buf
      apply nf_step_congr
      intro b' hb'
      have h1 : next_frame_fuel g b' = next_frame b' :=
        IH g (by omega) b' (by omega)
      have h2 : next_frame_fuel buf.length b' = next_frame b' :=
        IH buf.length (by omega) b' hb'
      rw [h1, h2]

lemma next_frame_fix (buf : List Nat) : next_frame buf = nf_step next_frame buf := by
  show nf_step (next_frame_fuel buf.length) buf = nf_step next_frame buf
  apply nf_step_congr
  intro b' hb'
  exact next_frame_fuel_canon buf.length b' hb'

lemma next_frame_fuel_shrink :
    ∀ (f : Nat) (buf : List Nat) (fr : Nat × List Nat) (rest : List Nat),
      next_frame_fuel f buf = (some fr, rest) → rest.length < buf.length := by
  intro f
  induction f with
  | zero =>
    intro buf fr rest h
    simp [next_frame_fuel] at h
  | succ g IH =>
    intro buf fr rest h
    have hd : (buf.dropWhile (fun x => x != 0xAA)).length ≤ buf.length :=
      length_dropWhile_le' _ _
    unfold next_frame_fuel nf_step at h
    set b := buf.dropWhile (fun x => x != 0xAA) with hb
    unfold nf_core at h
    split_ifs at h with h1 h2 h3 h4 h5 h6
    · exact absurd h (by simp)
    · have h' := IH _ _ _ h
      simp only [List.length_drop] at h'
      omega
    · exact absurd h (by simp)
    · have h' := IH _ _ _ h
      simp only [List.length_drop] at h'
      omega
    · have h' := IH _ _ _ h
      simp only [List.length_drop] at h'
      omega
    · have h' := IH _ _ _ h
      simp only [List.length_drop] at h'
      omega
    · rw [Prod.mk.injEq] at h
      obtain ⟨-, h8⟩ := h
      rw [← h8]
      simp only [List.length_drop]
      omega

lemma drain_fuel_canon :
    ∀ (f : Nat) (buf : List Nat), buf.length < f →
      drain_fuel f buf = drain buf := by
  intro f
  induction f using Nat.strong_induction_on with
  | _ f IH =>
    intro buf hf
    cases f with
    | zero => omega
    | succ g =>
      unfold drain
      cases hnf : next_frame buf with
      | mk o r =>
        cases o with
        | none => simp [drain_fuel, hnf]
        | some fr =>
          have hr : r.length < buf.length := next_frame_fuel_shrink _ _ _ _ hnf
          simp only [drain_fuel, hnf]
          rw [IH g (by omega) r (by omega), IH buf.length (by omega) r hr]

lemma drain_cons {buf : List Nat} {fr : Nat × List Nat} {rest : List Nat}
    (h : next_frame buf = (some fr, rest)) : drain buf = fr :: drain rest := by
  have hr : rest.length < buf.length := next_frame_fuel_shrink _ _ _ _ h
  show drain_fuel (buf.length + 1) buf = fr :: drain rest
  simp only [drain_fuel, h]
  rw [drain_fuel_canon buf.length rest hr]

lemma drain_none {buf b : List Nat} (h : next_frame buf = (none, b)) :
    drain buf = [] := by
  unfold drain
  simp [drain_fuel, h]

lemma dropWhile_append_noise {n : List Nat} (h : ∀ x ∈ n, x ≠ 0xAA)
    (rest : List Nat) :
    (n ++ rest).dropWhile (fun x => x != 0xAA) =
      rest.dropWhile (fun x => x != 0xAA) := by
  induction n with
  | nil => rfl
  | cons a t iht =>
    have ha : (a != 0xAA) = true := by
      simpa using h a (by simp)
    rw [List.cons_append, List.dropWhile_cons, if_pos ha]
    exact iht (fun x hx => h x (by simp [hx]))

/-- Bytes before the first start marker are skipped: noise that contains
no `0xAA` never affects the parse of what follows. -/
lemma next_frame_append_noise {n : List Nat} (h : ∀ x ∈ n, x ≠ 0xAA)
    (rest : List Nat) :
    next_frame (n ++ rest) = next_frame rest := by
  rw [next_frame_fix, next_frame_fix]
  unfold nf_step
  rw [dropWhile_append_noise h rest]

lemma dropWhile_head_aa {t : List Nat} :
    (0xAA :: t).dropWhile (fun x => x != 0xAA) = 0xAA :: t := by
  rw [List.dropWhile_cons]
  simp

lemma next_frame_noise {n : List Nat} (h : ∀ x ∈ n, x ≠ 0xAA) :
    next_frame n = (none, []) := by
  have h0 : next_frame (n ++ []) = next_frame [] := next_frame_append_noise h []
  simpa using h0

/-- A well-formed encoder output at the head of the buffer parses to its
identifier and data, consuming exactly the frame. -/
lemma next_frame_valid_frame {can_id : Nat} {data : List Nat} (rest : List Nat)
    (hid : can_id ≤ 0x7FF) (hlen : data.length ≤ 7) :
    next_frame (usbcan_frame_bytes can_id data ++ rest) =
      (some (can_id, data), rest) := by
  set F := usbcan_frame_bytes can_id data with hF
  set dlc := data.length + 1 with hdlc
  have hFlen : F.length = 5 + dlc := by
    simp [hF, usbcan_frame_bytes]
    omega
  have hlen' : (F ++ rest).length = 5 + dlc + rest.length := by
    simp [List.length_append, hFlen]
  have hdw : (F ++ rest).dropWhile (fun x => x != 0xAA) = F ++ rest := by
    rw [hF]
    simp only [usbcan_frame_bytes, List.cons_append]
    exact dropWhile_head_aa
  have hg1 : (F ++ rest).getD 1 0 = 0xC0 + dlc % 16 := by
    rw [List.getD_append _ _ _ _ (by omega)]
    simp [hF, usbcan_frame_bytes]
  have hg2 : (F ++ rest).getD 2 0 = can_id % 256 := by
    rw [List.getD_append _ _ _ _ (by omega)]
    simp [hF, usbcan_frame_bytes]
  have hg3 : (F ++ rest).getD 3 0 = can_id / 256 % 256 := by
    rw [List.getD_append _ _ _ _ (by omega)]
    simp [hF, usbcan_frame_bytes]
  have hctrl16 : (0xC0 + dlc % 16) % 16 = dlc := by omega
  have hg4 : (F ++ rest).getD (4 + dlc) 0 = 0x55 := by
    rw [List.getD_append _ _ _ _ (by omega)]
    rw [hF]
    simp only [usbcan_frame_bytes]
    have h4 : 4 + dlc = dlc + 4 := by omega
    rw [h4]
    simp only [List.getD_cons_succ]
    rw [List.getD_append_right _ _ _ _ (by omega)]
    have h1 : dlc - data.length = 1 := by omega
    rw [h1]
    rfl
  have hdrop4 : (F ++ rest).drop 4 = (data ++ [can_crc can_id data, 0x55]) ++ rest := by
    rw [hF]
    simp [usbcan_frame_bytes]
  have htake : ((data ++ [can_crc can_id data, 0x55]) ++ rest).take dlc =
      data ++ [can_crc can_id data] := by
    rw [List.append_assoc, hdlc]
    rw [show data.length + 1 = data.length + 1 from rfl]
    rw [List.take_append 1]
    rfl
  have hdropT : (F ++ rest).drop (5 + dlc) = rest := by
    apply List.drop_left'
    omega
  have hcan : can_id % 256 + can_id / 256 % 256 * 256 = can_id := by omega
  rw [next_frame_fix]
  unfold nf_step nf_core
  rw [hdw, hg1, hctrl16, hg4, hg2, hg3, hcan, hdrop4, htake, hdropT, hlen']
  rw [if_neg (by omega), if_neg (by omega), if_neg (by omega), if_neg (by omega),
    if_neg (by omega)]
  rw [List.getLast?_concat, List.dropLast_concat]
  rw [if_neg (by simp)]

/-- C6 counterexample: a complete candidate with a matching control byte
and end marker but a bad checksum is discarded in full (`total_len`
bytes), not just its leading start-marker byte.  Here the 13-byte bad-CRC
candidate contains a genuine valid frame starting at offset 1, which the
deframer destroys — parsing after dropping only the leading byte would
have recovered it. -/
theorem c6_counterexample :
    next_frame [0xAA, 0xC8, 0xAA, 0xC2, 1, 0, 1, 2, 0x55, 0, 0, 0, 0x55] =
      (none, []) ∧
    next_frame
        (List.drop 1 [0xAA, 0xC8, 0xAA, 0xC2, 1, 0, 1, 2, 0x55, 0, 0, 0, 0x55]) =
      (some (1, [1]), [0, 0, 0, 0x55]) := by
  decide

/-- C6 (amended): when a candidate frame fails the control-byte pattern or
the end-marker check, the deframer drops only the leading start-marker
byte and rescans; but when a complete candidate's checksum mismatches, the
entire candidate (`5 + dlc` bytes) is discarded before rescanning, because
the code deletes the candidate from the buffer before checking the CRC. -/
theorem c6_amended :
    ∀ (buf : List Nat), buf.head? = some 0xAA → 6 ≤ buf.length →
      ((buf.getD 1 0 / 16 % 16 ≠ 12 → next_frame buf = next_frame (buf.drop 1)) ∧
       (buf.getD 1 0 / 16 % 16 = 12 → 5 + buf.getD 1 0 % 16 ≤ buf.length →
         buf.getD (4 + buf.getD 1 0 % 16) 0 ≠ 0x55 →
         next_frame buf = next_frame (buf.drop 1)) ∧
       (buf.getD 1 0 / 16 % 16 = 12 → 5 + buf.getD 1 0 % 16 ≤ buf.length →
         buf.getD (4 + buf.getD 1 0 % 16) 0 = 0x55 → 1 ≤ buf.getD 1 0 % 16 →
         ((buf.drop 4).take (buf.getD 1 0 % 16)).getLast?.getD 0 ≠
           can_crc (buf.getD 2 0 + buf.getD 3 0 * 256)
             ((buf.drop 4).take (buf.getD 1 0 % 16)).dropLast →
         next_frame buf = next_frame (buf.drop (5 + buf.getD 1 0 % 16)))) := by
  intro buf hhead hlen
  obtain ⟨t, rfl⟩ : ∃ t, buf = 0xAA :: t := by
    cases buf with
    | nil => simp at hhead
    | cons a t =>
      simp only [List.head?_cons, Option.some.injEq] at hhead
      exact ⟨t, by rw [hhead]⟩
  have hdw : (0xAA :: t).dropWhile (fun x => x != 0xAA) = 0xAA :: t :=
    dropWhile_head_aa
  refine ⟨?_, ?_, ?_⟩
  · intro hctrl
    rw [next_frame_fix]
    unfold nf_step nf_core
    rw [hdw, if_neg (by omega), if_pos hctrl]
  · intro hctrl htot htail
    rw [next_frame_fix]
    unfold nf_step nf_core
    rw [hdw, if_neg (by omega), if_neg (by omega), if_neg (by omega), if_pos htail]
  · intro hctrl htot htail hdlc hcrc
    rw [next_frame_fix]
    unfold nf_step nf_core
    rw [hdw, if_neg (by omega), if_neg (by omega), if_neg (by omega),
      if_neg (by omega), if_neg (by omega), if_pos hcrc]

/-- Witness for C6's amended theorem: a false control byte after a start
marker costs exactly one buffer byte. -/
theorem c6_amended_witness :
    next_frame [0xAA, 0, 0, 0, 0, 0x55] =
      next_frame (List.drop 1 [0xAA, 0, 0, 0, 0, 0x55]) :=
  (c6_amended [0xAA, 0, 0, 0, 0, 0x55] rfl (by decide)).1 (by decide)

/-- C5 counterexample: the resync guarantee fails for noise that contains
no complete valid frame.  The noise `AA C8` opens a 13-byte candidate that
spans the first genuine frame and ends at a stray `55` with a bad CRC;
the deframer then discards all 13 bytes, swallowing the first frame, and
yields only the second — not the claimed two frames in order. -/
theorem c5_counterexample :
    usbcan_frame_bytes 1 [1] = [0xAA, 0xC2, 1, 0, 1, 2, 0x55] ∧
    usbcan_frame_bytes 2 [5] = [0xAA, 0xC2, 2, 0, 5, 7, 0x55] ∧
    contains_valid_frame [0xAA, 0xC8] = false ∧
    contains_valid_frame [0, 0, 0, 0x55] = false ∧
    contains_valid_frame [] = false ∧
    drain ([0xAA, 0xC8] ++ [0xAA, 0xC2, 1, 0, 1, 2, 0x55] ++ [0, 0, 0, 0x55] ++
        [0xAA, 0xC2, 2, 0, 5, 7, 0x55] ++ []) = [(2, [5])] := by
  decide

/-- C5 (amended): feeding `n1 ++ f1 ++ n2 ++ f2 ++ n3` through the
deframer yields exactly the frames `f1` then `f2`, in order, provided the
noise segments contain no start-marker byte `0xAA` at all (noise that is
merely free of complete valid frames can still open a false candidate
that swallows a genuine frame, as the counterexample shows). -/
theorem c5_amended :
    ∀ (id1 id2 : Nat) (d1 d2 n1 n2 n3 : List Nat),
      id1 ≤ 0x7FF → id2 ≤ 0x7FF → d1.length ≤ 7 → d2.length ≤ 7 →
      (∀ x ∈ n1, x ≠ 0xAA) → (∀ x ∈ n2, x ≠ 0xAA) → (∀ x ∈ n3, x ≠ 0xAA) →
      drain (n1 ++ usbcan_frame_bytes id1 d1 ++ n2 ++ usbcan_frame_bytes id2 d2 ++ n3) =
        [(id1, d1), (id2, d2)] := by
  intro id1 id2 d1 d2 n1 n2 n3 h1 h2 h3 h4 hn1 hn2 hn3
  have e1 : next_frame (n1 ++ (usbcan_frame_bytes id1 d1 ++
      (n2 ++ (usbcan_frame_bytes id2 d2 ++ n3)))) =
      (some (id1, d1), n2 ++ (usbcan_frame_bytes id2 d2 ++ n3)) := by
    rw [next_frame_append_noise hn1]
    exact next_frame_valid_frame _ h1 h3
  have e2 : next_frame (n2 ++ (usbcan_frame_bytes id2 d2 ++ n3)) =
      (some (id2, d2), n3) := by
    rw [next_frame_append_noise hn2]
    exact next_frame_valid_frame _ h2 h4
  have e3 : next_frame n3 = (none, []) := next_frame_noise hn3
  simp only [List.append_assoc]
  rw [drain_cons e1, drain_cons e2, drain_none e3]

/-- Witness for C5's amended theorem with two concrete frames and empty
noise. -/
theorem c5_amended_witness :
    drain ([] ++ usbcan_frame_bytes 1 [1] ++ [] ++ usbcan_frame_bytes 2 [5] ++ []) =
      [(1, [1]), (2, [5])] :=
  c5_amended 1 2 [1] [5] [] [] [] (by decide) (by decide) (by decide) (by decide)
    (by simp) (by simp) (by simp)

end DaniBot
